import Mathlib

/-!
Shallow embedding of `real_c_string`'s `src/lib.rs`.

The crate's core is the function `transform`, which walks the input
string's Unicode scalar values with `chars().enumerate()`, and for each
scalar `c` at offset `i`:
  * if `c as u32 <= transform_type.max_char()`, emits the token
    `(c as i8),` (CString) or `(c as i16),` (CWString) — the
    two's-complement signed reinterpretation of `c` at the unit size;
  * otherwise emits a `compile_error!("Unsupported character ... at offset ...")`
    placeholder token carrying the character and the offset.
After the walk it appends the terminator token `0i8,` / `0i16,`.

We model the emitted token stream as a `List Token` where a token is
either an encoded unit (its numeric value, as `Int`) or a diagnostic
placeholder (character scalar value and zero-based offset).
-/

namespace RealCString

/-- The two supported widths, as in the Rust `enum TransformType`.
`CString` is the narrow (8-bit) width, `CWString` the wide (16-bit) width. -/
inductive TransformType where
  | CString
  | CWString
deriving DecidableEq, Repr

/-- `TransformType::max_char`: the maximum scalar value that fits the width
(`0xff` for `CString`, `0xffff` for `CWString`). -/
def TransformType.max_char : TransformType → Nat
  | .CString => 0xff
  | .CWString => 0xffff

/-- The bit width of one encoded unit: 8 for `CString` (`i8`),
16 for `CWString` (`i16`). -/
def TransformType.unit_size_bits : TransformType → Nat
  | .CString => 8
  | .CWString => 16

/-- A diagnostic emitted for an out-of-range character: the
`compile_error!` placeholder names the character and its zero-based
offset in the scalar sequence. -/
structure Diagnostic where
  character : Nat
  offset : Nat
deriving DecidableEq, Repr

/-- One element of the emitted token stream: either an encoded unit
(an `i8`/`i16` literal, modelled by its integer value) or a
`compile_error!` diagnostic placeholder. -/
inductive Token where
  | unit (v : Int)
  | diag (character : Nat) (offset : Nat)
deriving DecidableEq, Repr

/-- The Rust cast `out as i8` / `out as i16` applied to a scalar value:
truncate to the unit size and reinterpret as a two's-complement signed
integer. -/
def asSigned (t : TransformType) (c : Nat) : Int :=
  let m := c % 2 ^ t.unit_size_bits
  if m < 2 ^ (t.unit_size_bits - 1) then (m : Int) else (m : Int) - 2 ^ t.unit_size_bits

/-- The body of the `enumerate().map(...)` closure in `transform`:
an in-range scalar becomes a signed unit token, an out-of-range scalar
becomes a `compile_error!` diagnostic token carrying the character and
its offset. -/
def step (t : TransformType) (offset : Nat) (c : Nat) : Token :=
  if c ≤ t.max_char then Token.unit (asSigned t c) else Token.diag c offset

/-- The walk of `transform`: map `step` over the scalars, tracking the
zero-based offset, then append the terminator unit `0`. -/
def transformFrom (t : TransformType) (offset : Nat) : List Nat → List Token
  | [] => [Token.unit 0]
  | c :: rest => step t offset c :: transformFrom t (offset + 1) rest

/-- `transform`: the emitted token stream for an input scalar sequence,
starting the offset counter at 0. -/
def transform (t : TransformType) (input : List Nat) : List Token :=
  transformFrom t 0 input

/-- Extracts the diagnostic carried by a `compile_error!` placeholder token. -/
def extractDiag : Token → Option Diagnostic
  | .unit _ => none
  | .diag c i => some ⟨c, i⟩

/-- The diagnostics contained in the emitted stream, in emission order. -/
def diagnostics (t : TransformType) (input : List Nat) : List Diagnostic :=
  (transform t input).filterMap extractDiag

/-- The numeric values of the unit tokens of a stream, in order. -/
def unitValues (ts : List Token) : List Int :=
  ts.filterMap fun tok =>
    match tok with
    | .unit v => some v
    | .diag _ _ => none

/-- A token stream is a usable artifact only when it consists purely of
unit tokens (no `compile_error!` placeholder anywhere); in that case the
artifact is the list of unit values. -/
def asArtifact : List Token → Option (List Int)
  | [] => some []
  | .unit v :: rest => (asArtifact rest).map (v :: ·)
  | .diag _ _ :: _ => none

/-- Reinterpreting a signed unit value as unsigned at the same width. -/
def toUnsigned (t : TransformType) (v : Int) : Nat :=
  (v % 2 ^ t.unit_size_bits).toNat

/-- The scalar values of `"Hello world!"`. -/
def helloWorld : List Nat := [72, 101, 108, 108, 111, 32, 119, 111, 114, 108, 100, 33]

/-- The scalar values of `"Привет"`. -/
def privet : List Nat := [1055, 1088, 1080, 1074, 1077, 1090]

/-! ## Helper lemmas -/

/-- The walk is the `enumerate().map(step)` of the input followed by the
terminator. -/
lemma transformFrom_eq (t : TransformType) (n : Nat) (l : List Nat) :
    transformFrom t n l =
      ((List.enumFrom n l).map fun p => step t p.1 p.2) ++ [Token.unit 0] := by
  induction l generalizing n with
  | nil => simp [transformFrom, List.enumFrom]
  | cons c rest ih => simp [transformFrom, List.enumFrom, ih]

/-- On an all-valid input the walk emits one signed unit per scalar and the
terminator. -/
lemma transformFrom_of_valid (t : TransformType) (n : Nat) (l : List Nat)
    (h : ∀ c ∈ l, c ≤ t.max_char) :
    transformFrom t n l =
      (l.map fun c => Token.unit (asSigned t c)) ++ [Token.unit 0] := by
  induction l generalizing n with
  | nil => simp [transformFrom]
  | cons c rest ih =>
    have hc : c ≤ t.max_char := h c (List.mem_cons_self c rest)
    have hrest := ih (n + 1) fun x hx => h x (List.mem_cons_of_mem c hx)
    simp [transformFrom, step, hc, hrest]

/-- Round-trip of the signed cast: for an in-range scalar, reinterpreting
the signed unit as unsigned at the same width recovers the scalar. -/
lemma toUnsigned_asSigned (t : TransformType) (c : Nat) (h : c ≤ t.max_char) :
    toUnsigned t (asSigned t c) = c := by
  cases t <;>
    simp only [toUnsigned, asSigned, TransformType.max_char,
      TransformType.unit_size_bits] at h ⊢ <;>
    split <;> omega

/-- Every diagnostic in the walk's output records a character above the
width's maximum. -/
lemma max_char_lt_of_mem_diag (t : TransformType) (n : Nat) (l : List Nat)
    (d : Diagnostic) (hd : d ∈ (transformFrom t n l).filterMap extractDiag) :
    t.max_char < d.character := by
  induction l generalizing n with
  | nil => simp [transformFrom, extractDiag, List.filterMap] at hd
  | cons c rest ih =>
    simp only [transformFrom, step] at hd
    by_cases hc : c ≤ t.max_char
    · rw [if_pos hc] at hd
      simp only [List.filterMap_cons, extractDiag] at hd
      exact ih (n + 1) hd
    · rw [if_neg hc] at hd
      simp only [List.filterMap_cons, extractDiag, List.mem_cons] at hd
      rcases hd with rfl | hd
      · exact Nat.lt_of_not_le hc
      · exact ih (n + 1) hd

/-- The diagnostics of the walk are exactly the offending entries of the
enumeration, in order. -/
lemma diagFrom_eq (t : TransformType) (n : Nat) (l : List Nat) :
    (transformFrom t n l).filterMap extractDiag =
      ((List.enumFrom n l).filter fun p => t.max_char < p.2).map
        fun p => ⟨p.2, p.1⟩ := by
  induction l generalizing n with
  | nil => simp [transformFrom, extractDiag, List.enumFrom]
  | cons c rest ih =>
    simp only [transformFrom, step, List.enumFrom, List.filter_cons]
    by_cases hc : c ≤ t.max_char
    · rw [if_pos hc]
      simp only [List.filterMap_cons, extractDiag]
      rw [ih]
      simp [Nat.not_lt_of_le hc]
    · rw [if_neg hc]
      simp only [List.filterMap_cons, extractDiag]
      rw [ih]
      simp [Nat.lt_of_not_le hc]

/-- The unit values of an all-unit stream followed by the terminator. -/
lemma unitValues_units (f : Nat → Int) (l : List Nat) :
    unitValues ((l.map fun c => Token.unit (f c)) ++ [Token.unit 0]) =
      l.map f ++ [0] := by
  induction l with
  | nil => rfl
  | cons c rest ih =>
    simp only [List.map_cons, List.cons_append, unitValues,
      List.filterMap_cons] at ih ⊢
    rw [ih]

/-- An all-unit stream followed by the terminator carries no diagnostic. -/
lemma extractDiag_units (f : Nat → Int) (l : List Nat) :
    ((l.map fun c => Token.unit (f c)) ++ [Token.unit 0]).filterMap
      extractDiag = [] := by
  induction l with
  | nil => rfl
  | cons c rest ih =>
    simp only [List.map_cons, List.cons_append, List.filterMap_cons,
      extractDiag] at ih ⊢
    exact ih

/-- A token stream collapses to an artifact exactly when it carries no
diagnostic placeholder. -/
lemma asArtifact_eq_none_iff (ts : List Token) :
    asArtifact ts = none ↔ ts.filterMap extractDiag ≠ [] := by
  induction ts with
  | nil => simp [asArtifact]
  | cons tok rest ih =>
    cases tok with
    | unit v =>
      simp only [asArtifact, List.filterMap_cons, extractDiag, Option.map_eq_none']
      exact ih
    | diag c i =>
      simp [asArtifact, List.filterMap_cons, extractDiag]

/-! ## Claims -/

/-- Claim C1: for every input and width, if every scalar is at most the
active width's `max_char`, then reinterpreting each non-terminator unit of
the emitted stream as unsigned of the same width, in order up to (not
including) the terminator, reconstructs the original scalar sequence
exactly (and no diagnostic is emitted). -/
theorem c1_roundtrip (t : TransformType) (input : List Nat)
    (h : ∀ c ∈ input, c ≤ t.max_char) :
    ((unitValues (transform t input)).dropLast).map (toUnsigned t) = input ∧
    diagnostics t input = [] := by
  constructor
  · rw [transform, transformFrom_of_valid t 0 input h, unitValues_units,
      List.dropLast_concat, List.map_map]
    have hmap : List.map (toUnsigned t ∘ asSigned t) input = List.map id input :=
      List.map_congr_left fun c hc => toUnsigned_asSigned t c (h c hc)
    rw [hmap, List.map_id]
  · rw [diagnostics, transform, transformFrom_of_valid t 0 input h]
    exact extractDiag_units _ input

/-- Claim C1 witness at the concrete input `[65, 255]` with the narrow
width. -/
theorem c1_roundtrip_witness :
    (∀ c ∈ [65, 255], c ≤ TransformType.CString.max_char) ∧
    (((unitValues (transform .CString [65, 255])).dropLast).map
        (toUnsigned .CString) = [65, 255] ∧
      diagnostics .CString [65, 255] = []) :=
  ⟨by decide, c1_roundtrip .CString [65, 255] (by decide)⟩

/-- Claim C2: for every input and width, the emitted sequence has exactly
one element per input scalar plus the single appended terminator of value
`0`, independent of validity. -/
theorem c2_length (t : TransformType) (input : List Nat) :
    (transform t input).length = input.length + 1 ∧
    (transform t input).getLast? = some (Token.unit 0) := by
  rw [transform, transformFrom_eq]
  constructor
  · simp
  · exact List.getLast?_concat _

/-- Claim C3: the diagnostics are exactly one per offending scalar
(value above the width's `max_char`), in ascending offset order — the
offending entries of the input's enumeration in order — and
`encode("Привет", Narrow)` yields exactly 6 diagnostics at offsets 0–5. -/
theorem c3_exhaustive_ordered_diagnostics (t : TransformType) (input : List Nat) :
    diagnostics t input =
      ((input.enum.filter fun p => t.max_char < p.2).map fun p => ⟨p.2, p.1⟩) ∧
    diagnostics .CString privet =
      [⟨1055, 0⟩, ⟨1088, 1⟩, ⟨1080, 2⟩, ⟨1074, 3⟩, ⟨1077, 4⟩, ⟨1090, 5⟩] ∧
    (diagnostics .CString privet).length = 6 :=
  ⟨diagFrom_eq t 0 input, rfl, rfl⟩

/-- Claim C4: an in-range scalar is emitted as the two's-complement signed
reinterpretation of its value at the active unit size: the unit is
congruent to the scalar modulo `2 ^ unit_size_bits`, scalars at or above
the signed-positive limit (`0x80` / `0x8000`) become negative, and scalars
below it are unchanged. -/
theorem c4_signed_reinterpretation (t : TransformType) (c offset : Nat)
    (h : c ≤ t.max_char) :
    step t offset c = Token.unit (asSigned t c) ∧
    asSigned t c % 2 ^ t.unit_size_bits = (c : Int) % 2 ^ t.unit_size_bits ∧
    (2 ^ (t.unit_size_bits - 1) ≤ c → asSigned t c < 0) ∧
    (c < 2 ^ (t.unit_size_bits - 1) → asSigned t c = (c : Int)) := by
  refine ⟨by rw [step, if_pos h], ?_, ?_, ?_⟩ <;>
    cases t <;>
    simp only [asSigned, TransformType.max_char, TransformType.unit_size_bits] at h ⊢ <;>
    norm_num <;> split <;> omega

/-- Claim C4 witness: at the narrow width, the scalar `0x80` maps to a
negative unit and `0x7F` maps to itself. -/
theorem c4_signed_reinterpretation_witness :
    (128 ≤ TransformType.CString.max_char) ∧
    step .CString 0 128 = Token.unit (asSigned .CString 128) ∧
    asSigned .CString 128 < 0 ∧
    asSigned .CString 127 = 127 :=
  ⟨by decide,
   (c4_signed_reinterpretation .CString 128 0 (by decide)).1,
   (c4_signed_reinterpretation .CString 128 0 (by decide)).2.2.1 (by decide),
   (c4_signed_reinterpretation .CString 127 0 (by decide)).2.2.2 (by decide)⟩

/-- Claim C5: for each width, a scalar exactly equal to `max_char` is
accepted and encoded as a unit, while `max_char + 1` is rejected with a
diagnostic naming that character at its offset. -/
theorem c5_boundary (t : TransformType) (offset : Nat) :
    step t offset t.max_char = Token.unit (asSigned t t.max_char) ∧
    diagnostics t [t.max_char] = [] ∧
    diagnostics t [t.max_char + 1] = [⟨t.max_char + 1, 0⟩] := by
  cases t <;> exact ⟨rfl, rfl, rfl⟩

/-- Claim C6: whenever the diagnostics are non-empty, the emitted stream is
not a usable artifact: it cannot be read as a pure sequence of units, so no
valid encoded artifact is produced from the non-offending characters. -/
theorem c6_no_partial_success (t : TransformType) (input : List Nat)
    (h : diagnostics t input ≠ []) :
    asArtifact (transform t input) = none := by
  rw [asArtifact_eq_none_iff]
  exact h

/-- Claim C6 witness at the concrete input `[256]` with the narrow width. -/
theorem c6_no_partial_success_witness :
    diagnostics .CString [256] ≠ [] ∧
    asArtifact (transform .CString [256]) = none :=
  ⟨by decide, c6_no_partial_success .CString [256] (by decide)⟩

/-- Claim C7: the transform is a pure function of `(input, width)`: two
invocations with identical arguments produce identical emitted streams and
identical diagnostics. -/
theorem c7_deterministic (t₁ t₂ : TransformType) (i₁ i₂ : List Nat)
    (ht : t₁ = t₂) (hi : i₁ = i₂) :
    transform t₁ i₁ = transform t₂ i₂ ∧
    diagnostics t₁ i₁ = diagnostics t₂ i₂ := by
  subst ht; subst hi; exact ⟨rfl, rfl⟩

/-- Claim C7 witness at the concrete input `"Hello world!"`. -/
theorem c7_deterministic_witness :
    transform .CString helloWorld = transform .CString helloWorld ∧
    diagnostics .CString helloWorld = diagnostics .CString helloWorld :=
  c7_deterministic .CString .CString helloWorld helloWorld rfl rfl

/-- Claim C8: for both widths, encoding the empty string yields exactly the
one-unit artifact `[0]` (the terminator) and no diagnostics. -/
theorem c8_empty (t : TransformType) :
    transform t [] = [Token.unit 0] ∧ diagnostics t [] = [] :=
  ⟨rfl, rfl⟩

/-- Claim C9: `encode("Hello world!", Narrow)` yields exactly 13 units —
each character's ASCII code point in order, unchanged, followed by the
terminator `0` — with no diagnostics, and the wide encoding yields the
numerically identical stream. -/
theorem c9_hello_world :
    transform .CString helloWorld =
      (([72, 101, 108, 108, 111, 32, 119, 111, 114, 108, 100, 33, 0] :
          List Int).map Token.unit) ∧
    transform .CWString helloWorld = transform .CString helloWorld ∧
    (transform .CString helloWorld).length = 13 ∧
    diagnostics .CString helloWorld = [] ∧
    diagnostics .CWString helloWorld = [] :=
  ⟨rfl, rfl, rfl, rfl, rfl⟩

/-- Claim C10: the scalar `0` always passes validation and encodes to a
unit of value `0`; no diagnostic ever names the character `0`; and the
concrete input `[65, 0, 66]` encodes successfully with a zero-valued unit
before the final terminator. -/
theorem c10_interior_nul (t : TransformType) (input : List Nat) (offset : Nat) :
    step t offset 0 = Token.unit 0 ∧
    ((diagnostics t input).all fun d => d.character != 0) = true ∧
    transform .CString [65, 0, 66] =
      [Token.unit 65, Token.unit 0, Token.unit 66, Token.unit 0] ∧
    diagnostics .CString [65, 0, 66] = [] := by
  refine ⟨?_, ?_, rfl, rfl⟩
  · rw [step, if_pos (Nat.zero_le _)]
    cases t <;> rfl
  · rw [List.all_eq_true]
    intro d hd
    have hmax := max_char_lt_of_mem_diag t 0 input d hd
    have hpos : 0 < t.max_char := by cases t <;> decide
    simp only [bne_iff_ne, ne_eq]
    omega

end RealCString
